import Mathlib

/-!
Verification of the string-schema notation compiler and validator.

The repository ships only the test-suite and demo callers of the library
(`string_schema.parse_string_schema`, `string_schema.validate_to_dict`,
`string_schema.parsing.string_parser._parse_default_value`,
`string_schema.parsing.string_parser._split_on_equals_outside_parens`);
the library itself is not among the provided source files.  All core
definitions below are therefore modelled from the specification
(spec.md §§3-7), with the tests' assertions fixing the points the spec
leaves open (e.g. the JSON-Schema format-name rendering).
-/

namespace StringSchema

/-- Whitespace characters recognised when trimming pieces of the compact
field-definition text. -/
def wsChar (c : Char) : Bool :=
  c = ' ' || c = '\t' || c = '\n' || c = '\r'

/-- Drop trailing elements satisfying `p` (via double reverse, kept
executable for kernel evaluation). -/
def dropTrail (p : Char → Bool) (l : List Char) : List Char :=
  (l.reverse.dropWhile p).reverse

/-- Trim surrounding whitespace from a character list. -/
def trimC (l : List Char) : List Char :=
  dropTrail wsChar (l.dropWhile wsChar)

/-- Trim surrounding whitespace from a string. -/
def strTrim (s : String) : String :=
  String.mk (trimC s.data)

/-- Lower-case a single ASCII character (used for the case-insensitive
default-literal keywords). -/
def lowerChar (c : Char) : Char :=
  if 'A' ≤ c ∧ c ≤ 'Z' then Char.ofNat (c.toNat + 32) else c

/-- Lower-case a character list. -/
def lowerC (l : List Char) : List Char :=
  l.map lowerChar

/-- Nesting-depth delta of a character: `(`, `[`, `{` open a group, the
matching closers end one (spec §4.1: a single depth counter over all
three bracket kinds). -/
def depthDelta (c : Char) : Int :=
  if c = '(' || c = '[' || c = '{' then 1
  else if c = ')' || c = ']' || c = '}' then -1
  else 0

/-- Modelled from the spec (§4.1 Splitter): scan left to right keeping a
nesting depth; the delimiter splits only at depth 0; every top-level
occurrence is a split point. -/
def splitTopAux (d : Char) : List Char → Int → List Char → List (List Char)
  | [], _, acc => [acc.reverse]
  | c :: rest, depth, acc =>
    if c = d ∧ depth = 0 then
      acc.reverse :: splitTopAux d rest 0 []
    else
      splitTopAux d rest (depth + depthDelta c) (c :: acc)

/-- Modelled from the spec (§4.1): `split_outside_groups(text, delimiter)`
splitting on every top-level occurrence of the delimiter. -/
def splitOutsideGroups (s : String) (d : Char) : List String :=
  (splitTopAux d s.data 0 []).map String.mk

/-- Modelled from the spec (§4.1): split only at the first top-level
occurrence of the delimiter, the remainder (further delimiters included)
staying one piece. -/
def splitFirstTopAux (d : Char) : List Char → Int → List Char → List String
  | [], _, acc => [String.mk acc.reverse]
  | c :: rest, depth, acc =>
    if c = d ∧ depth = 0 then
      [String.mk acc.reverse, String.mk rest]
    else
      splitFirstTopAux d rest (depth + depthDelta c) (c :: acc)

/-- Split a string at its first top-level occurrence of `d`. -/
def splitFirstTop (s : String) (d : Char) : List String :=
  splitFirstTopAux d s.data 0 []

/-- Modelled from the spec: the helper
`_split_on_equals_outside_parens` splits a field's right-hand side at the
first top-level `=` only. -/
def splitOnEqualsOutsideParens (s : String) : List String :=
  splitFirstTop s '='

/-- Modelled from the spec (§4.1): the grouping characters of a string are
balanced when the depth never drops below zero and ends at zero. -/
def balancedAux : List Char → Int → Bool
  | [], depth => depth = 0
  | c :: rest, depth =>
    let depth' := depth + depthDelta c
    if depth' < 0 then false else balancedAux rest depth'

/-- A string has balanced `()`, `[]`, `{}` grouping. -/
def balancedGroups (s : String) : Bool :=
  balancedAux s.data 0

/-- Modelled from the spec (§3, §9): the dynamically-typed `Value` carried
by parsed defaults and by input/output records, a closed tagged variant
{Null, Bool, Int, Float, Text, List, Map}.  Floating-point literals are
only ever parsed from decimal digit strings and compared, never
arithmetically manipulated, so they are embedded as exact rationals. -/
inductive Value : Type where
  | null : Value
  | bool (b : Bool) : Value
  | int (n : Int) : Value
  | float (q : Rat) : Value
  | text (s : String) : Value
  | list (vs : List Value) : Value
  | map (kvs : List (String × Value)) : Value

/-- Digit test for the integer/float literal patterns. -/
def digitChar (c : Char) : Bool :=
  '0' ≤ c && c ≤ '9'

/-- Character list matching the integer pattern of spec §4.2 rule 3:
optional leading `-`, then digits only (at least one). -/
def isIntLit : List Char → Bool
  | '-' :: rest => !rest.isEmpty && rest.all digitChar
  | l => !l.isEmpty && l.all digitChar

/-- Numeric value of a digit list (most significant first). -/
def digitsToNat (l : List Char) : Nat :=
  l.foldl (fun n c => 10 * n + (c.toNat - '0'.toNat)) 0

/-- Integer value of a character list already known to match `isIntLit`. -/
def intLitValue : List Char → Int
  | '-' :: rest => -(digitsToNat rest : Int)
  | l => (digitsToNat l : Int)

/-- Character list matching the floating-point pattern of spec §4.2 rule 4:
digits, one `.`, digits. -/
def isFloatLit (l : List Char) : Bool :=
  let intPart := l.takeWhile digitChar
  let rest := l.drop intPart.length
  match rest with
  | '.' :: frac => !intPart.isEmpty && !frac.isEmpty && frac.all digitChar
  | _ => false

/-- Exact rational value of a character list matching `isFloatLit`. -/
def floatLitValue (l : List Char) : Rat :=
  let intPart := l.takeWhile digitChar
  let frac := (l.drop intPart.length).drop 1
  mkRat ((digitsToNat intPart * 10 ^ frac.length + digitsToNat frac : Nat) : Int)
    (10 ^ frac.length)

/-- Whether a trimmed character list is surrounded by matching single or
double quotes (spec §4.2 rule 5). -/
def isQuoted (l : List Char) : Bool :=
  match l with
  | c :: rest => (c = '"' || c = '\'') && rest.length ≥ 1 && rest.getLast? = some c
  | [] => false

/-- Modelled from the spec (§4.2 Default-Literal Parser, the library's
`_parse_default_value`): rules checked in order on the trimmed text,
keywords case-insensitive — booleans, null/none, integer, float, quoted
string (quotes stripped), otherwise the bare trimmed text. -/
def parseDefaultValue (raw : String) : Value :=
  let t := trimC raw.data
  let low := lowerC t
  if low = "true".data then .bool true
  else if low = "false".data then .bool false
  else if low = "null".data || low = "none".data then .null
  else if isIntLit t then .int (intLitValue t)
  else if isFloatLit t then .float (floatLitValue t)
  else if isQuoted t then .text (String.mk ((t.drop 1).dropLast))
  else .text (String.mk t)

/-- Modelled from the spec (§3): the closed set of scalar kinds, the named
formats email/url/datetime included. -/
inductive SKind : Type where
  | integer | number | string | boolean | null
  | email | url | datetime
deriving DecidableEq

/-- Modelled from the spec (§3): optional numeric and length constraints
attached to a scalar kind. -/
structure Constraints : Type where
  minimum : Option Int := none
  maximum : Option Int := none
  minLength : Option Int := none
  maxLength : Option Int := none
deriving DecidableEq

/-- Constraint set with no bounds at all. -/
def noConstraints : Constraints := {}

mutual
/-- Modelled from the spec (§3 Data Model): the Type Descriptor tree and
the per-field record (name, type, optional marker, parsed default,
free-text description), mutually nested through object types. -/
inductive TypeDesc : Type where
  | scalar (kind : SKind) (c : Constraints) : TypeDesc
  | array (elem : TypeDesc) : TypeDesc
  | objectT (fields : List FieldSpec) : TypeDesc
  | union (variants : List TypeDesc) : TypeDesc
  | enumT (values : List String) : TypeDesc
/-- Field Spec of spec §3: carried by enclosing object types. -/
inductive FieldSpec : Type where
  | mk (name : String) (type : TypeDesc) (optional : Bool)
      (default : Option Value) (description : Option String) : FieldSpec
end

/-- Declared name of a field. -/
def FieldSpec.name : FieldSpec → String
  | .mk n _ _ _ _ => n

/-- Declared type of a field. -/
def FieldSpec.type : FieldSpec → TypeDesc
  | .mk _ t _ _ _ => t

/-- Whether the field carried the `?` marker. -/
def FieldSpec.optional : FieldSpec → Bool
  | .mk _ _ o _ _ => o

/-- Parsed default literal of a field, when declared. -/
def FieldSpec.default : FieldSpec → Option Value
  | .mk _ _ _ d _ => d

/-- Free-text description of a field, when declared. -/
def FieldSpec.description : FieldSpec → Option String
  | .mk _ _ _ _ ds => ds

/-- Modelled from the spec (§3): a Compiled Schema is the root object's
ordered field list together with its explicit ordered required-name
list. -/
structure Schema : Type where
  fields : List FieldSpec
  required : List String

/-- Names of the non-optional fields, in declaration order (spec §4.5). -/
def requiredNames (fs : List FieldSpec) : List String :=
  (fs.filter (fun f => !f.optional)).map FieldSpec.name

/-- Modelled from the spec (§7): the compile-time error taxonomy.
`missingColon` covers a field definition without a `name:` part (the
spec's grammar requires one but names no error for its absence) and
`depthExceeded` is the §5 bound on parser recursion depth. -/
inductive CompileError : Type where
  | unbalancedGrouping
  | unknownType (name : String)
  | invalidConstraint (text : String)
  | invalidOptionalPlacement (token : String)
  | duplicateField (name : String)
  | emptyFieldName
  | missingColon (piece : String)
  | depthExceeded
deriving DecidableEq

/-- Identifier characters of the type-token grammar. -/
def isIdentChar (c : Char) : Bool :=
  c.isAlpha || digitChar c || c = '_'

/-- Whether a character list has whitespace at group-nesting depth 0
(whitespace inside `()`, `[]`, `{}` content is allowed in a type token). -/
def depth0White : List Char → Int → Bool
  | [], _ => false
  | c :: rest, depth =>
    (depth = 0 && wsChar c) || depth0White rest (depth + depthDelta c)

/-- Shape check for an identifier-headed type token: an identifier,
optionally followed by a parenthesized argument list reaching the end. -/
def identParenShape (l : List Char) : Bool :=
  match l with
  | [] => false
  | c :: _ =>
    c.isAlpha &&
      (let rest := l.dropWhile isIdentChar
       rest.isEmpty || (rest.head? == some '(' && rest.getLast? == some ')'))

/-- Modelled from the spec (§4.3): a piece is a type token iff, once
trimmed and a single trailing `?` stripped, it is an identifier with an
optional parenthesized list, a `[...]` array form or a `{...}` object
form, with no internal whitespace outside nested group content. -/
def isTypeToken (piece : String) : Bool :=
  let t := trimC piece.data
  let t := if t.getLast? == some '?' then t.dropLast else t
  match t with
  | [] => false
  | c :: _ =>
    if depth0White t 0 then false
    else if c = '[' then t.getLast? == some ']'
    else if c = '{' then t.getLast? == some '}'
    else identParenShape t

/-- Modelled from the spec (§6): the closed set of recognized base type
identifiers and their scalar kinds. -/
def baseKind (s : String) : Option SKind :=
  if s = "int" || s = "integer" then some .integer
  else if s = "number" || s = "float" then some .number
  else if s = "string" then some .string
  else if s = "bool" || s = "boolean" then some .boolean
  else if s = "null" then some .null
  else if s = "email" then some .email
  else if s = "url" then some .url
  else if s = "datetime" then some .datetime
  else none

/-- Apply one `key=value` constraint argument (spec §4.3: keyword forms
`min=..`/`max=..`; numeric kinds get value bounds, string gets length
bounds). -/
def applyKwarg (k : SKind) (c : Constraints) (arg : String) :
    Except CompileError Constraints :=
  match splitFirstTop arg '=' with
  | [key, val] =>
    let key := strTrim key
    let v := trimC val.data
    if !isIntLit v then .error (.invalidConstraint arg)
    else
      let n := intLitValue v
      if key = "min" then
        match k with
        | .integer | .number => .ok { c with minimum := some n }
        | .string => .ok { c with minLength := some n }
        | _ => .error (.invalidConstraint arg)
      else if key = "max" then
        match k with
        | .integer | .number => .ok { c with maximum := some n }
        | .string => .ok { c with maxLength := some n }
        | _ => .error (.invalidConstraint arg)
      else .error (.invalidConstraint arg)
  | _ => .error (.invalidConstraint arg)

/-- Parse a positional constraint list (spec §4.3: `int(min,max)` and the
analogous length bounds for string). -/
def applyPositional (k : SKind) (args : List String) (orig : String) :
    Except CompileError Constraints :=
  let vals := args.map (fun a => trimC a.data)
  if !vals.all isIntLit then .error (.invalidConstraint orig)
  else
    match k, vals.map intLitValue with
    | .integer, [a] => .ok { minimum := some a }
    | .integer, [a, b] => .ok { minimum := some a, maximum := some b }
    | .number, [a] => .ok { minimum := some a }
    | .number, [a, b] => .ok { minimum := some a, maximum := some b }
    | .string, [a] => .ok { minLength := some a }
    | .string, [a, b] => .ok { minLength := some a, maxLength := some b }
    | _, _ => .error (.invalidConstraint orig)

/-- Modelled from the spec (§4.3): constraint lists are parsed
positionally for built-in kinds, with keyword forms also accepted. -/
def parseConstraintArgs (k : SKind) (args : List String) (orig : String) :
    Except CompileError Constraints :=
  if args.any (fun a => a.data.contains '=') then
    args.foldlM (applyKwarg k) {}
  else applyPositional k args orig

/-- First name occurring twice in a list, if any (spec §4.5 duplicate
field detection). -/
def firstDup : List String → Option String
  | [] => none
  | n :: rest => if rest.contains n then some n else firstDup rest

/-- Rejoin pieces with the `|` delimiter exactly as they were split. -/
def joinBar : List String → String
  | [] => ""
  | [s] => s
  | s :: rest => s ++ "|" ++ joinBar rest

mutual
/-- Modelled from the spec (§4.4-§4.5, the library's
`parse_string_schema` body): top-level comma split, each piece compiled
to a Field Spec, duplicate names rejected.  The fuel argument realises
the §5 bound on parser recursion depth. -/
def compileFieldsF : Nat → String → Except CompileError (List FieldSpec)
  | 0, _ => .error .depthExceeded
  | n + 1, s => do
    let fields ← compileFieldListF n (splitOutsideGroups s ',')
    match firstDup (fields.map FieldSpec.name) with
    | some d => .error (.duplicateField d)
    | none => .ok fields

/-- Compile each comma-split piece in order. -/
def compileFieldListF : Nat → List String → Except CompileError (List FieldSpec)
  | 0, _ => .error .depthExceeded
  | _ + 1, [] => .ok []
  | n + 1, p :: ps => do
    let f ← compileFieldF n p
    let rest ← compileFieldListF n ps
    .ok (f :: rest)

/-- Modelled from the spec (§4.4 Field Compiler): split once on the first
top-level `:`; split the rest once on the first top-level `=`; the type
side goes through §4.3 union/description classification; the default
side's first top-level `|` piece is the default literal and the rejoined
remainder the description. -/
def compileFieldF : Nat → String → Except CompileError FieldSpec
  | 0, _ => .error .depthExceeded
  | n + 1, piece =>
    match splitFirstTop piece ':' with
    | [nm, rest] =>
      let nm := strTrim nm
      if nm.data.isEmpty then .error .emptyFieldName
      else
        match splitOnEqualsOutsideParens rest with
        | [typeSide] => do
          let (td, opt, descr) ← parseTypeWithDescrF n typeSide
          .ok (.mk nm td opt none descr)
        | typeSide :: defSide :: _ => do
          let (td, opt, descrL) ← parseTypeWithDescrF n typeSide
          match splitOutsideGroups defSide '|' with
          | [] => .error (.invalidConstraint defSide)
          | dflt :: restPs =>
            let dv := parseDefaultValue dflt
            let descrR :=
              if restPs.isEmpty then descrL
              else some (strTrim (joinBar restPs))
            .ok (.mk nm td opt (some dv) descrR)
        | [] => .error (.missingColon piece)
    | _ => .error (.missingColon piece)

/-- Modelled from the spec (§4.3): split on top-level `|`, collect the
greedy run of leading type-token pieces as union members, rejoin and trim
the remainder as the description; a trailing `?` on the last member marks
the field optional and may not appear on earlier members. -/
def parseTypeWithDescrF : Nat → String →
    Except CompileError (TypeDesc × Bool × Option String)
  | 0, _ => .error .depthExceeded
  | n + 1, s =>
    let ps := splitOutsideGroups s '|'
    let toks := ps.takeWhile isTypeToken
    let restPs := ps.drop toks.length
    let descr :=
      if restPs.isEmpty then none else some (strTrim (joinBar restPs))
    match toks with
    | [] => .error (.unknownType (strTrim s))
    | [t] =>
      let tc := trimC t.data
      let q := tc.getLast? == some '?'
      let tc := if q then tc.dropLast else tc
      do
        let td ← parseTypeTokenF n (String.mk tc)
        .ok (td, q, descr)
    | _ =>
      if toks.dropLast.any (fun p => (trimC p.data).getLast? == some '?') then
        .error (.invalidOptionalPlacement (strTrim (joinBar toks)))
      else
        match toks.getLast? with
        | none => .error (.unknownType (strTrim s))
        | some lastTok =>
          let lc := trimC lastTok.data
          let q := lc.getLast? == some '?'
          let lc := if q then lc.dropLast else lc
          do
            let members ← parseTokenListF n
              (toks.dropLast.map (fun p => String.mk (trimC p.data)) ++
                [String.mk lc])
            .ok (.union members, q, descr)

/-- Parse each union-member token in order. -/
def parseTokenListF : Nat → List String → Except CompileError (List TypeDesc)
  | 0, _ => .error .depthExceeded
  | _ + 1, [] => .ok []
  | n + 1, t :: ts => do
    let td ← parseTypeTokenF n t
    let rest ← parseTokenListF n ts
    .ok (td :: rest)

/-- Modelled from the spec (§4.3 Type-Expression Parser): a single type
token, already trimmed with any `?` stripped — `[...]` recurses into the
element type expression, `{...}` recurses into the full field compiler,
and an identifier resolves through the closed base-kind set with its
optional constraint/enum argument list. -/
def parseTypeTokenF : Nat → String → Except CompileError TypeDesc
  | 0, _ => .error .depthExceeded
  | n + 1, tok =>
    match tok.data with
    | [] => .error (.unknownType tok)
    | c :: _ =>
      let l := tok.data
      if c = '[' then
        if l.getLast? == some ']' then do
          let elemT ← parseUnionTokensF n (String.mk (trimC ((l.drop 1).dropLast)))
          .ok (.array elemT)
        else .error (.unknownType tok)
      else if c = '{' then
        if l.getLast? == some '}' then do
          let fs ← compileFieldsF n (String.mk ((l.drop 1).dropLast))
          .ok (.objectT fs)
        else .error (.unknownType tok)
      else
        let identPart := l.takeWhile isIdentChar
        let rest := l.drop identPart.length
        let base := String.mk identPart
        match rest with
        | [] =>
          if base = "enum" then .error (.invalidConstraint tok)
          else
            match baseKind base with
            | some k => .ok (.scalar k noConstraints)
            | none => .error (.unknownType base)
        | '(' :: _ =>
          if rest.getLast? == some ')' then
            let argsStr := (rest.drop 1).dropLast
            let args := (splitTopAux ',' argsStr 0 []).map
              (fun a => String.mk (trimC a))
            if base = "enum" then .ok (.enumT args)
            else
              match baseKind base with
              | some k => do
                let cs ← parseConstraintArgs k args tok
                .ok (.scalar k cs)
              | none => .error (.unknownType base)
          else .error (.unknownType tok)
        | _ => .error (.unknownType tok)

/-- Modelled from the spec (§4.3): the type expression inside an array's
`[...]` — a single type token or a `|`-union of type tokens, with no
description allowed. -/
def parseUnionTokensF : Nat → String → Except CompileError TypeDesc
  | 0, _ => .error .depthExceeded
  | n + 1, s =>
    let ps := (splitOutsideGroups s '|').map strTrim
    if ps.all isTypeToken then
      match ps with
      | [t] => parseTypeTokenF n t
      | _ => do
        let ms ← parseTokenListF n ps
        .ok (.union ms)
    else .error (.unknownType (strTrim s))
end

/-- Modelled from the spec (§4.4-§4.5, §6, the library's
`parse_string_schema`): reject unbalanced grouping, compile the field
list and assemble the root object schema with its ordered required-name
list.  The fuel bound is linear in the input length, which dominates the
recursion depth actually possible (spec §5). -/
def parseStringSchema (s : String) : Except CompileError Schema :=
  if balancedGroups s then
    match compileFieldsF (4 * (s.data.length + 8)) s with
    | .ok fields => .ok ⟨fields, requiredNames fields⟩
    | .error e => .error e
  else .error .unbalancedGrouping

/-- Modelled from the spec (§6): the named format kinds are rendered to
JSON-Schema format names when the compiled schema is serialized; the
renderer itself is not among the provided source files, so the mapping is
fixed by the repository tests' assertions (email→"email", url→"uri",
datetime→"date-time"). -/
def formatName : SKind → Option String
  | .email => some "email"
  | .url => some "uri"
  | .datetime => some "date-time"
  | _ => none

/-- First declared field with the given name. -/
def findField : List FieldSpec → String → Option FieldSpec
  | [], _ => none
  | f :: rest, k => if f.name = k then some f else findField rest k

/-- JSON-Schema format name rendered for a named field of a compiled
notation string, when the notation compiles and the field is a scalar. -/
def compiledFormat (s fieldName : String) : Option String :=
  match parseStringSchema s with
  | .ok sch =>
    match findField sch.fields fieldName with
    | some f =>
      match f.type with
      | .scalar k _ => formatName k
      | _ => none
    | none => none
  | .error _ => none

/-- Which bound of a constraint set a value violated. -/
inductive BoundKind : Type where
  | minimum | maximum | minLength | maxLength
deriving DecidableEq

/-- Modelled from the spec (§7): the validation-time error taxonomy. -/
inductive VError : Type where
  | missingRequired (name : String)
  | typeMismatch (name : String) (expected : String)
  | constraintViolated (name : String) (which : BoundKind) (bound : Int)
  | formatMismatch (name : String) (kind : SKind)
  | noUnionVariantMatched (name : String) (attempted : List String)
  | notInEnum (name : String) (allowed : List String)
  | depthExceeded
deriving DecidableEq

/-- First value bound to a key in an input/output mapping. -/
def lookupField : List (String × Value) → String → Option Value
  | [], _ => none
  | (k2, v) :: rest, k => if k2 = k then some v else lookupField rest k

/-- Rendered name of a scalar kind (used in error reports). -/
def scalarLabel : SKind → String
  | .integer => "integer"
  | .number => "number"
  | .string => "string"
  | .boolean => "boolean"
  | .null => "null"
  | .email => "email"
  | .url => "url"
  | .datetime => "datetime"

/-- Rendered name of a Type Descriptor's top constructor (used when a
union reports its attempted variant kinds). -/
def kindLabel : TypeDesc → String
  | .scalar k _ => scalarLabel k
  | .array _ => "array"
  | .objectT _ => "object"
  | .union _ => "union"
  | .enumT _ => "enum"

/-- Numeric bound check of spec §4.6 step 3, reporting each violated
bound. -/
def numBoundErrs (name : String) (c : Constraints) (q : Rat) : List VError :=
  (match c.minimum with
   | some m => if q < (m : Rat) then [.constraintViolated name .minimum m] else []
   | none => []) ++
  (match c.maximum with
   | some m => if (m : Rat) < q then [.constraintViolated name .maximum m] else []
   | none => [])

/-- String length bound check of spec §4.6 step 3. -/
def lenBoundErrs (name : String) (c : Constraints) (len : Int) : List VError :=
  (match c.minLength with
   | some m => if len < m then [.constraintViolated name .minLength m] else []
   | none => []) ++
  (match c.maxLength with
   | some m => if m < len then [.constraintViolated name .maxLength m] else []
   | none => [])

/-- Whether one character list begins with another. -/
def startsWithC (p s : List Char) : Bool :=
  s.take p.length == p

/-- Modelled from the spec (§4.6): named formats are checked by pattern,
not semantic validation; the concrete patterns are not among the provided
source files, so simple representative patterns stand in for them. -/
def matchesFormat : SKind → String → Bool
  | .email, s => s.data.contains '@' && s.data.contains '.'
  | .url, s => startsWithC "http://".data s.data || startsWithC "https://".data s.data
  | .datetime, s => s.data.contains '-' && s.data.contains ':'
  | _, _ => true

/-- Modelled from the spec (§4.6 step 3): dynamic-kind check plus
numeric/length constraints for one scalar kind. -/
def checkScalar (name : String) (k : SKind) (c : Constraints) (v : Value) :
    List VError :=
  match k, v with
  | .integer, .int n => numBoundErrs name c (n : Rat)
  | .number, .int n => numBoundErrs name c (n : Rat)
  | .number, .float q => numBoundErrs name c q
  | .string, .text s => lenBoundErrs name c (s.data.length : Int)
  | .boolean, .bool _ => []
  | .null, .null => []
  | .email, .text s =>
    if matchesFormat .email s then [] else [.formatMismatch name .email]
  | .url, .text s =>
    if matchesFormat .url s then [] else [.formatMismatch name .url]
  | .datetime, .text s =>
    if matchesFormat .datetime s then [] else [.formatMismatch name .datetime]
  | _, _ => [.typeMismatch name (scalarLabel k)]

/-- Modelled from the spec (§4.6 step 2): required fields still absent
after default injection (absent from the input with no default). -/
def missingErrors (fs : List FieldSpec) (m : List (String × Value)) :
    List VError :=
  (fs.filter (fun f =>
    !f.optional && (lookupField m f.name).isNone && f.default.isNone)).map
    (fun f => .missingRequired f.name)

/-- Modelled from the spec (§4.6 step 4): unknown input keys pass through
unchanged into the output. -/
def passthrough (fs : List FieldSpec) (m : List (String × Value)) :
    List (String × Value) :=
  m.filter (fun kv => (findField fs kv.1).isNone)

mutual
/-- Modelled from the spec (§4.6 step 3): check one value against its
Type Descriptor, returning the recursively normalized value on success
and the collected errors on failure.  The fuel argument realises the §5
bound on recursion depth. -/
def validateValue : Nat → String → TypeDesc → Value → Except (List VError) Value
  | 0, _, _, _ => .error [.depthExceeded]
  | n + 1, name, t, v =>
    match t, v with
    | .scalar k c, v =>
      match checkScalar name k c v with
      | [] => .ok v
      | es => .error es
    | .array et, .list vs =>
      if (validateElems n name et vs).1.isEmpty then
        .ok (.list (validateElems n name et vs).2)
      else .error (validateElems n name et vs).1
    | .array _, _ => .error [.typeMismatch name "array"]
    | .objectT fs, .map m =>
      match validateFields n fs m with
      | .ok out => .ok (.map out)
      | .error es => .error es
    | .objectT _, _ => .error [.typeMismatch name "object"]
    | .union ts, v => validateUnion n name (ts.map kindLabel) ts v
    | .enumT vals, .text tv =>
      if vals.contains tv then .ok (.text tv) else .error [.notInEnum name vals]
    | .enumT vals, _ => .error [.notInEnum name vals]

/-- Per-index element validation of an array (spec §4.6), collecting all
element errors. -/
def validateElems : Nat → String → TypeDesc → List Value → List VError × List Value
  | 0, _, _, _ => ([.depthExceeded], [])
  | _ + 1, _, _, [] => ([], [])
  | n + 1, name, et, v :: rest =>
    match validateValue n name et v with
    | .ok w =>
      ((validateElems n name et rest).1, w :: (validateElems n name et rest).2)
    | .error es =>
      (es ++ (validateElems n name et rest).1, (validateElems n name et rest).2)

/-- Union variants tried in declared order; the first success wins (spec
§4.6), otherwise all attempted kinds are reported. -/
def validateUnion : Nat → String → List String → List TypeDesc → Value →
    Except (List VError) Value
  | 0, _, _, _, _ => .error [.depthExceeded]
  | _ + 1, name, attempted, [], _ => .error [.noUnionVariantMatched name attempted]
  | n + 1, name, attempted, tv :: rest, v =>
    match validateValue n name tv v with
    | .ok w => .ok w
    | .error _ => validateUnion n name attempted rest v

/-- Per-field pass of spec §4.6 steps 1 and 3: a field present in the
input is validated and recursively normalized; an absent field with a
default gets the default injected verbatim (a fresh copy, not
re-validated — the spec's §8 scenario `email:string?=null` normalizes to
a null value on a string-typed field); all field errors are collected
alongside the declared pairs, in declaration order. -/
def checkFields : Nat → List FieldSpec → List (String × Value) →
    List VError × List (String × Value)
  | 0, _, _ => ([.depthExceeded], [])
  | _ + 1, [], _ => ([], [])
  | n + 1, .mk nm ty _ dfl _ :: rest, m =>
    match lookupField m nm with
    | some v =>
      match validateValue n nm ty v with
      | .ok w =>
        ((checkFields n rest m).1, (nm, w) :: (checkFields n rest m).2)
      | .error es =>
        (es ++ (checkFields n rest m).1, (checkFields n rest m).2)
    | none =>
      match dfl with
      | some d =>
        ((checkFields n rest m).1, (nm, d) :: (checkFields n rest m).2)
      | none => checkFields n rest m

/-- Modelled from the spec (§4.6): one object level — inject defaults for
absent names, record missing required names, validate every present
field, aggregate all direct errors, and on success emit the declared
fields in declaration order followed by pass-through unknown keys. -/
def validateFields : Nat → List FieldSpec → List (String × Value) →
    Except (List VError) (List (String × Value))
  | 0, _, _ => .error [.depthExceeded]
  | n + 1, fs, m =>
    if (missingErrors fs m ++ (checkFields n fs m).1).isEmpty then
      .ok ((checkFields n fs m).2 ++ passthrough fs m)
    else .error (missingErrors fs m ++ (checkFields n fs m).1)
end

mutual
/-- Structural size of a value, bounding the validator's recursion depth
into it (spec §5: recursion depth is bounded by the input's own nesting,
itself bounded by its size). -/
def valueSize : Value → Nat
  | .null => 1
  | .bool _ => 1
  | .int _ => 1
  | .float _ => 1
  | .text _ => 1
  | .list vs => 1 + valueListSize vs
  | .map kvs => 1 + kvValueListSize kvs
termination_by structural v => v
/-- Structural size of a value list. -/
def valueListSize : List Value → Nat
  | [] => 0
  | v :: rest => 1 + valueSize v + valueListSize rest
termination_by structural l => l
/-- Structural size of a key-value mapping. -/
def kvValueListSize : List (String × Value) → Nat
  | [] => 0
  | (_, v) :: rest => 1 + valueSize v + kvValueListSize rest
termination_by structural l => l
end

mutual
/-- Structural size of a Type Descriptor, bounding the validator's
recursion depth into the schema. -/
def typeSize : TypeDesc → Nat
  | .scalar _ _ => 1
  | .array t => 1 + typeSize t
  | .objectT fs => 1 + fieldsSize fs
  | .union ts => 1 + typeListSize ts
  | .enumT _ => 1
termination_by structural t => t
/-- Structural size of a Type Descriptor list. -/
def typeListSize : List TypeDesc → Nat
  | [] => 0
  | t :: rest => 1 + typeSize t + typeListSize rest
termination_by structural l => l
/-- Structural size of a Field Spec list. -/
def fieldsSize : List FieldSpec → Nat
  | [] => 0
  | .mk _ t _ _ _ :: rest => 1 + typeSize t + fieldsSize rest
termination_by structural l => l
end

/-- Compile-or-validation failure of the combined entry point. -/
inductive SchemaError : Type where
  | compileErr (e : CompileError)
  | validationErr (es : List VError)
deriving DecidableEq

/-- Modelled from the spec (§6, the library's `validate_to_dict`):
compile the notation string, then validate and normalize the input
mapping against it. -/
def validateToDict (data : List (String × Value)) (schemaStr : String) :
    Except SchemaError (List (String × Value)) :=
  match parseStringSchema schemaStr with
  | .error e => .error (.compileErr e)
  | .ok sch =>
    match validateFields (4 * (fieldsSize sch.fields + kvValueListSize data) + 16) sch.fields data with
    | .error es => .error (.validationErr es)
    | .ok out => .ok out

/-- The schema compiled from the padded and compact forms of the combined
five-field example. -/
def c10Schema : Schema :=
  ⟨[.mk "id" (.scalar .integer noConstraints) false none
      (some "Unique identifier"),
    .mk "name" (.scalar .string noConstraints) false none (some "User name"),
    .mk "age" (.scalar .integer ⟨some 0, some 120, none, none⟩) false
      (some (.int 18)) (some "User age"),
    .mk "active" (.scalar .boolean noConstraints) false (some (.bool true))
      (some "Account status"),
    .mk "email" (.scalar .string noConstraints) true none
      (some "Optional email")],
   ["id", "name", "age", "active"]⟩

set_option maxRecDepth 100000

/-- The first-`=` splitter never yields more than two pieces. -/
theorem splitFirstTopAux_length_le (d : Char) :
    ∀ (l : List Char) (depth : Int) (acc : List Char),
      (splitFirstTopAux d l depth acc).length ≤ 2
  | [], _, _ => by simp [splitFirstTopAux]
  | c :: rest, depth, acc => by
    rw [splitFirstTopAux]
    split
    · simp
    · exact splitFirstTopAux_length_le d rest _ _

/-- C1: for the notation `active:bool=true, count:int=0,
status:string=pending, price:number=9.99`, validating the empty record
injects every declared default, and validating `{count: 5}` yields the
same record except `count = 5`. -/
theorem C1_validation_uses_defaults :
    validateToDict []
      "active:bool=true, count:int=0, status:string=pending, price:number=9.99" =
      .ok [("active", .bool true), ("count", .int 0), ("status", .text "pending"),
           ("price", .float (mkRat 999 100))] ∧
    validateToDict [("count", .int 5)]
      "active:bool=true, count:int=0, status:string=pending, price:number=9.99" =
      .ok [("active", .bool true), ("count", .int 5), ("status", .text "pending"),
           ("price", .float (mkRat 999 100))] :=
  ⟨rfl, rfl⟩

/-- C2: `age:int(0,120) | User age in years` compiles to a single integer
type with bounds 0 and 120 and the trailing text as description (not a
union), while `value:string|int|null` compiles to a three-member union
with no description. -/
theorem C2_union_vs_description :
    parseStringSchema "age:int(0,120) | User age in years" =
      .ok ⟨[.mk "age" (.scalar .integer ⟨some 0, some 120, none, none⟩) false none
              (some "User age in years")], ["age"]⟩ ∧
    parseStringSchema "value:string|int|null" =
      .ok ⟨[.mk "value" (.union [.scalar .string noConstraints,
              .scalar .integer noConstraints, .scalar .null noConstraints])
              false none none], ["value"]⟩ :=
  ⟨rfl, rfl⟩

/-- C3: the default-literal parser applies its rules in order,
case-insensitively for keywords, after trimming: booleans, null/none,
integers, floats, quoted strings with quotes stripped, and bare text
falling through as a string. -/
theorem C3_default_literal_rules :
    parseDefaultValue "true" = .bool true ∧
    parseDefaultValue "True" = .bool true ∧
    parseDefaultValue "FALSE" = .bool false ∧
    parseDefaultValue "false" = .bool false ∧
    parseDefaultValue "null" = .null ∧
    parseDefaultValue "none" = .null ∧
    parseDefaultValue "None" = .null ∧
    parseDefaultValue "123" = .int 123 ∧
    parseDefaultValue "0" = .int 0 ∧
    parseDefaultValue "45.67" = .float (mkRat 4567 100) ∧
    parseDefaultValue "\"hello\"" = .text "hello" ∧
    parseDefaultValue "'world'" = .text "world" ∧
    parseDefaultValue "hello" = .text "hello" ∧
    parseDefaultValue "  true  " = .bool true :=
  ⟨rfl, rfl, rfl, rfl, rfl, rfl, rfl, rfl, rfl, rfl, rfl, rfl, rfl, rfl⟩

/-- C4: the `=`-splitter splits only at the first top-level `=`, keeping
the whole remainder (later `=` included) as one piece, and yields a
single piece when no top-level `=` exists; in general it never produces
more than two pieces. -/
theorem C4_equals_splitter :
    splitOnEqualsOutsideParens "int(1,100)=5" = ["int(1,100)", "5"] ∧
    splitOnEqualsOutsideParens "string=a=b" = ["string", "a=b"] ∧
    splitOnEqualsOutsideParens "string" = ["string"] ∧
    (∀ s : String, (splitOnEqualsOutsideParens s).length ≤ 2) :=
  ⟨rfl, rfl, rfl, fun s => splitFirstTopAux_length_le '=' s.data 0 []⟩

/-- C5: for every notation string that compiles, the required list is
exactly the names of the fields declared without the `?` marker, in
declaration order — with no reference to whether a default exists. -/
theorem C5_required_iff_not_optional (s : String) (sch : Schema)
    (h : parseStringSchema s = .ok sch) :
    sch.required = (sch.fields.filter (fun f => !f.optional)).map FieldSpec.name := by
  unfold parseStringSchema at h
  split at h
  · split at h
    · cases h
      rfl
    · cases h
  · cases h

/-- C5 witness: the schema compiled from `age:int(0,120)=18, email:string?`
has required list `["age"]` — the defaulted field stays required, the
`?`-marked field does not. -/
theorem C5_required_iff_not_optional_witness :
    (Schema.mk
      [.mk "age" (.scalar .integer ⟨some 0, some 120, none, none⟩) false
          (some (.int 18)) none,
       .mk "email" (.scalar .string noConstraints) true none none]
      ["age"]).required =
    ((Schema.mk
      [.mk "age" (.scalar .integer ⟨some 0, some 120, none, none⟩) false
          (some (.int 18)) none,
       .mk "email" (.scalar .string noConstraints) true none none]
      ["age"]).fields.filter (fun f => !f.optional)).map FieldSpec.name :=
  C5_required_iff_not_optional "age:int(0,120)=18, email:string?" _ rfl

/-- C7: for `age:int(0,120)=18 | User's age in years`, validating
`{"age": 200}` fails with a ConstraintViolated error citing the maximum
bound 120. -/
theorem C7_constraint_violation_cites_maximum :
    validateToDict [("age", .int 200)] "age:int(0,120)=18 | User's age in years" =
      .error (.validationErr [.constraintViolated "age" .maximum 120]) :=
  rfl

/-- C8: compilation is deterministic — two successful compilations of the
same notation string produce structurally equal schemas. -/
theorem C8_deterministic_compilation (s : String) (sch1 sch2 : Schema)
    (h1 : parseStringSchema s = .ok sch1) (h2 : parseStringSchema s = .ok sch2) :
    sch1 = sch2 := by
  rw [h1] at h2
  injection h2

/-- C8 witness: both compilations of `a:int` give the same schema. -/
theorem C8_deterministic_compilation_witness :
    Schema.mk [.mk "a" (.scalar .integer noConstraints) false none none] ["a"] =
    Schema.mk [.mk "a" (.scalar .integer noConstraints) false none none] ["a"] :=
  C8_deterministic_compilation "a:int" _ _ rfl rfl

/-- C9: the named format kinds render JSON-Schema format names differing
from the notation identifiers — `email` stays "email", `url` becomes
"uri", `datetime` becomes "date-time". -/
theorem C9_named_format_rendering :
    compiledFormat "email:email, website:url, created:datetime" "email" =
      some "email" ∧
    compiledFormat "email:email, website:url, created:datetime" "website" =
      some "uri" ∧
    compiledFormat "email:email, website:url, created:datetime" "created" =
      some "date-time" :=
  ⟨rfl, rfl, rfl⟩

/-- Looking a key up in an appended mapping finds the left entry first. -/
theorem lookupField_append_some :
    ∀ (a b : List (String × Value)) (k : String) (v : Value),
      lookupField a k = some v → lookupField (a ++ b) k = some v
  | [], _, _, _, h => by simp [lookupField] at h
  | (k2, v2) :: rest, b, k, v, h => by
    by_cases hk : k2 = k
    · simpa [lookupField, hk] using h
    · rw [List.cons_append, lookupField, if_neg hk]
      rw [lookupField, if_neg hk] at h
      exact lookupField_append_some rest b k v h

/-- A key absent on the left of an append is looked up on the right. -/
theorem lookupField_append_none :
    ∀ (a b : List (String × Value)) (k : String),
      lookupField a k = none → lookupField (a ++ b) k = lookupField b k
  | [], _, _, _ => rfl
  | (k2, v2) :: rest, b, k, h => by
    by_cases hk : k2 = k
    · simp [lookupField, hk] at h
    · rw [List.cons_append, lookupField, if_neg hk]
      rw [lookupField, if_neg hk] at h
      exact lookupField_append_none rest b k h

/-- A name that is not declared finds no field. -/
theorem findField_eq_none_of_not_mem :
    ∀ (fs : List FieldSpec) (k : String),
      k ∉ fs.map FieldSpec.name → findField fs k = none
  | [], _, _ => rfl
  | f :: rest, k, h => by
    rw [List.map_cons, List.mem_cons] at h
    push_neg at h
    rw [findField, if_neg (fun he => h.1 he.symm)]
    exact findField_eq_none_of_not_mem rest k h.2

/-- For an undeclared key, pass-through keeps the input's binding. -/
theorem passthrough_lookup_undeclared :
    ∀ (fs : List FieldSpec) (m : List (String × Value)) (k : String),
      findField fs k = none →
      lookupField (passthrough fs m) k = lookupField m k
  | _, [], _, _ => rfl
  | fs, (k2, v2) :: rest, k, h => by
    by_cases hk : k2 = k
    · subst hk
      rw [passthrough, List.filter_cons, if_pos (by simp [h])]
      simp [lookupField]
    · rw [passthrough, List.filter_cons]
      rw [lookupField, if_neg hk]
      split
      · rw [lookupField, if_neg hk]
        exact passthrough_lookup_undeclared fs rest k h
      · exact passthrough_lookup_undeclared fs rest k h

/-- A key absent from the input is absent from the pass-through part. -/
theorem passthrough_lookup_absent :
    ∀ (fs : List FieldSpec) (m : List (String × Value)) (k : String),
      lookupField m k = none → lookupField (passthrough fs m) k = none
  | _, [], _, _ => rfl
  | fs, (k2, v2) :: rest, k, h => by
    by_cases hk : k2 = k
    · simp [lookupField, hk] at h
    · rw [lookupField, if_neg hk] at h
      rw [passthrough, List.filter_cons]
      split
      · rw [lookupField, if_neg hk]
        exact passthrough_lookup_absent fs rest k h
      · exact passthrough_lookup_absent fs rest k h

/-- A failed object-level validation reports at least one error. -/
theorem validateFields_error_ne (n : Nat) (fs : List FieldSpec)
    (m : List (String × Value)) (es : List VError)
    (h : validateFields n fs m = .error es) : es ≠ [] := by
  cases n with
  | zero =>
    rw [validateFields] at h
    injection h with h
    simp [← h]
  | succ n =>
    rw [validateFields] at h
    split at h
    · cases h
    · next hcond =>
      injection h with h
      subst h
      intro hnil
      rw [hnil] at hcond
      simp at hcond

/-- A failed union validation reports at least one error. -/
theorem validateUnion_error_ne :
    ∀ (n : Nat) (name : String) (att : List String) (ts : List TypeDesc)
      (v : Value) (es : List VError),
      validateUnion n name att ts v = .error es → es ≠ []
  | 0, _, _, _, _, es, h => by
    rw [validateUnion] at h
    injection h with h
    simp [← h]
  | _ + 1, _, _, [], _, es, h => by
    rw [validateUnion] at h
    injection h with h
    simp [← h]
  | n + 1, name, att, t :: rest, v, es, h => by
    rw [validateUnion] at h
    split at h
    · cases h
    · exact validateUnion_error_ne n name att rest v es h

/-- A failed value validation reports at least one error. -/
theorem validateValue_error_ne (n : Nat) (name : String) (t : TypeDesc)
    (v : Value) (es : List VError)
    (h : validateValue n name t v = .error es) : es ≠ [] := by
  cases n with
  | zero =>
    rw [validateValue] at h
    injection h with h
    simp [← h]
  | succ n =>
    cases t with
    | scalar k c =>
      rw [validateValue] at h
      cases hcs : checkScalar name k c v with
      | nil => rw [hcs] at h; cases h
      | cons e es2 =>
        rw [hcs] at h
        injection h with h
        simp [← h]
    | array et =>
      cases v with
      | list vs =>
        rw [validateValue] at h
        split at h
        · cases h
        · next hcond =>
          injection h with h
          subst h
          intro hnil
          rw [hnil] at hcond
          simp at hcond
      | null =>
        injection (show Except.error [VError.typeMismatch name "array"] =
          Except.error es from h) with h2
        simp [← h2]
      | bool b =>
        injection (show Except.error [VError.typeMismatch name "array"] =
          Except.error es from h) with h2
        simp [← h2]
      | int i =>
        injection (show Except.error [VError.typeMismatch name "array"] =
          Except.error es from h) with h2
        simp [← h2]
      | float q =>
        injection (show Except.error [VError.typeMismatch name "array"] =
          Except.error es from h) with h2
        simp [← h2]
      | text s =>
        injection (show Except.error [VError.typeMismatch name "array"] =
          Except.error es from h) with h2
        simp [← h2]
      | map kvs =>
        injection (show Except.error [VError.typeMismatch name "array"] =
          Except.error es from h) with h2
        simp [← h2]
    | objectT fs =>
      cases v with
      | map kvs =>
        rw [validateValue] at h
        cases hvf : validateFields n fs kvs with
        | ok out => rw [hvf] at h; cases h
        | error es2 =>
          rw [hvf] at h
          injection h with h
          subst h
          exact validateFields_error_ne n fs kvs _ hvf
      | null =>
        injection (show Except.error [VError.typeMismatch name "object"] =
          Except.error es from h) with h2
        simp [← h2]
      | bool b =>
        injection (show Except.error [VError.typeMismatch name "object"] =
          Except.error es from h) with h2
        simp [← h2]
      | int i =>
        injection (show Except.error [VError.typeMismatch name "object"] =
          Except.error es from h) with h2
        simp [← h2]
      | float q =>
        injection (show Except.error [VError.typeMismatch name "object"] =
          Except.error es from h) with h2
        simp [← h2]
      | text s =>
        injection (show Except.error [VError.typeMismatch name "object"] =
          Except.error es from h) with h2
        simp [← h2]
      | list vs =>
        injection (show Except.error [VError.typeMismatch name "object"] =
          Except.error es from h) with h2
        simp [← h2]
    | union ts =>
      rw [validateValue] at h
      exact validateUnion_error_ne n name (ts.map kindLabel) ts v es h
    | enumT vals =>
      cases v with
      | text tv =>
        rw [validateValue] at h
        split at h
        · cases h
        · injection h with h; simp [← h]
      | null =>
        injection (show Except.error [VError.notInEnum name vals] =
          Except.error es from h) with h2
        simp [← h2]
      | bool b =>
        injection (show Except.error [VError.notInEnum name vals] =
          Except.error es from h) with h2
        simp [← h2]
      | int i =>
        injection (show Except.error [VError.notInEnum name vals] =
          Except.error es from h) with h2
        simp [← h2]
      | float q =>
        injection (show Except.error [VError.notInEnum name vals] =
          Except.error es from h) with h2
        simp [← h2]
      | list vs =>
        injection (show Except.error [VError.notInEnum name vals] =
          Except.error es from h) with h2
        simp [← h2]
      | map kvs =>
        injection (show Except.error [VError.notInEnum name vals] =
          Except.error es from h) with h2
        simp [← h2]

/-- A successful scalar validation passes the value through unchanged. -/
theorem validateValue_scalar_ok (n : Nat) (name : String) (k : SKind)
    (c : Constraints) (v w : Value)
    (h : validateValue n name (.scalar k c) v = .ok w) : w = v := by
  cases n with
  | zero => rw [validateValue] at h; cases h
  | succ n =>
    rw [validateValue] at h
    cases hcs : checkScalar name k c v with
    | nil =>
      rw [hcs] at h
      injection h with h
      exact h.symm
    | cons e es2 => rw [hcs] at h; cases h

/-- Defining equation of `checkFields` at exhausted fuel. -/
theorem checkFields_zero (fs : List FieldSpec) (m : List (String × Value)) :
    checkFields 0 fs m = ([.depthExceeded], []) := rfl

/-- Defining equation of `checkFields` on the empty field list. -/
theorem checkFields_nil (n : Nat) (m : List (String × Value)) :
    checkFields (n + 1) [] m = ([], []) := rfl

/-- Defining equation of `checkFields` on a field-list head. -/
theorem checkFields_cons (n : Nat) (nm : String) (ty : TypeDesc) (opt : Bool)
    (dfl : Option Value) (ds : Option String) (rest : List FieldSpec)
    (m : List (String × Value)) :
    checkFields (n + 1) (.mk nm ty opt dfl ds :: rest) m =
      match lookupField m nm with
      | some v =>
        match validateValue n nm ty v with
        | .ok w =>
          ((checkFields n rest m).1, (nm, w) :: (checkFields n rest m).2)
        | .error es =>
          (es ++ (checkFields n rest m).1, (checkFields n rest m).2)
      | none =>
        match dfl with
        | some d =>
          ((checkFields n rest m).1, (nm, d) :: (checkFields n rest m).2)
        | none => checkFields n rest m := rfl

/-- A key that names no declared field is absent from the declared part
of the validator's output. -/
theorem checkFields_lookup_undeclared :
    ∀ (n : Nat) (fs : List FieldSpec) (m : List (String × Value)) (k : String),
      findField fs k = none → lookupField (checkFields n fs m).2 k = none
  | 0, _, _, _, _ => rfl
  | _ + 1, [], _, _, _ => rfl
  | n + 1, .mk nm ty opt dfl ds :: rest, m, k, h => by
    rw [findField] at h
    split at h
    · cases h
    · next hne =>
      have hne2 : ¬ nm = k := by simpa [FieldSpec.name] using hne
      have ih := checkFields_lookup_undeclared n rest m k h
      rw [checkFields_cons]
      cases hm : lookupField m nm with
      | some v =>
        cases hv : validateValue n nm ty v with
        | ok w =>
          simp only [hm, hv]
          rw [lookupField, if_neg hne2]
          exact ih
        | error es => simp only [hm, hv]; exact ih
      | none =>
        cases dfl with
        | some d =>
          simp only [hm]
          rw [lookupField, if_neg hne2]
          exact ih
        | none => simp only [hm]; exact ih

/-- When an object level reports no field errors, each input-present
declared field appears in the declared output bound to the successful
validation of its input value. -/
theorem checkFields_present :
    ∀ (n : Nat) (fs : List FieldSpec) (m : List (String × Value)) (k : String)
      (v : Value) (f : FieldSpec),
      (checkFields n fs m).1 = [] → lookupField m k = some v →
      findField fs k = some f →
      ∃ w nv, validateValue nv k f.type v = .ok w ∧
        lookupField (checkFields n fs m).2 k = some w
  | 0, fs, m, k, v, f, he, _, _ => by simp [checkFields_zero] at he
  | _ + 1, [], _, _, _, _, _, _, hf => by cases hf
  | n + 1, .mk nm ty opt dfl ds :: rest, m, k, v, f, he, hm, hf => by
    rw [checkFields_cons] at he ⊢
    rw [findField] at hf
    split at hf
    · next heq =>
      have heq2 : nm = k := by simpa [FieldSpec.name] using heq
      injection hf with hf
      subst hf
      subst heq2
      cases hv : validateValue n nm ty v with
      | ok w =>
        refine ⟨w, n, by simpa [FieldSpec.type] using hv, ?_⟩
        simp only [hm, hv]
        rw [lookupField, if_pos rfl]
      | error es =>
        exfalso
        simp only [hm, hv] at he
        exact validateValue_error_ne n nm ty v es hv (List.append_eq_nil.mp he).1
    · next hne =>
      have hne2 : ¬ nm = k := by simpa [FieldSpec.name] using hne
      cases hm2 : lookupField m nm with
      | some v2 =>
        cases hv2 : validateValue n nm ty v2 with
        | ok w2 =>
          simp only [hm2, hv2] at he ⊢
          rw [lookupField, if_neg hne2]
          exact checkFields_present n rest m k v f he hm hf
        | error es2 =>
          simp only [hm2, hv2] at he ⊢
          exact checkFields_present n rest m k v f
            (List.append_eq_nil.mp he).2 hm hf
      | none =>
        cases dfl with
        | some d =>
          simp only [hm2] at he ⊢
          rw [lookupField, if_neg hne2]
          exact checkFields_present n rest m k v f he hm hf
        | none =>
          simp only [hm2] at he ⊢
          exact checkFields_present n rest m k v f he hm hf

/-- With distinct declared names, a key absent from the input appears in
the declared output only through the (verbatim) default of the field it
names. -/
theorem checkFields_absent :
    ∀ (n : Nat) (fs : List FieldSpec) (m : List (String × Value)) (k : String)
      (w : Value),
      (fs.map FieldSpec.name).Nodup →
      lookupField m k = none →
      lookupField (checkFields n fs m).2 k = some w →
      ∃ f, findField fs k = some f ∧ f.default = some w
  | 0, _, _, _, _, _, _, hl => by simp [checkFields_zero, lookupField] at hl
  | _ + 1, [], _, _, _, _, _, hl => by simp [checkFields_nil, lookupField] at hl
  | n + 1, .mk nm ty opt dfl ds :: rest, m, k, w, hnd, hm, hl => by
    rw [List.map_cons, List.nodup_cons] at hnd
    rw [checkFields_cons] at hl
    by_cases heq : nm = k
    · subst heq
      simp only [hm] at hl
      cases dfl with
      | some d =>
        rw [lookupField, if_pos rfl] at hl
        injection hl with hl
        exact ⟨.mk nm ty opt (some d) ds,
          by simp [findField, FieldSpec.name],
          by simp [FieldSpec.default, hl]⟩
      | none =>
        exfalso
        have hff : findField rest nm = none :=
          findField_eq_none_of_not_mem rest nm
            (by simpa [FieldSpec.name] using hnd.1)
        rw [checkFields_lookup_undeclared n rest m nm hff] at hl
        cases hl
    · have step : lookupField (checkFields n rest m).2 k = some w := by
        cases hm2 : lookupField m nm with
        | some v2 =>
          cases hv2 : validateValue n nm ty v2 with
          | ok w2 =>
            simp only [hm2, hv2] at hl
            rwa [lookupField, if_neg heq] at hl
          | error es2 => simpa only [hm2, hv2] using hl
        | none =>
          cases dfl with
          | some d =>
            simp only [hm2] at hl
            rwa [lookupField, if_neg heq] at hl
          | none => simpa only [hm2] using hl
      obtain ⟨f, hf, hd⟩ := checkFields_absent n rest m k w hnd.2 hm step
      exact ⟨f,
        by rw [findField, if_neg (by simpa [FieldSpec.name] using heq)]; exact hf,
        hd⟩

/-- A name list on which the duplicate scan finds nothing has no
duplicates. -/
theorem nodup_of_firstDup_none :
    ∀ (l : List String), firstDup l = none → l.Nodup
  | [], _ => List.nodup_nil
  | x :: rest, h => by
    rw [firstDup] at h
    split at h
    · cases h
    · next hc =>
      refine List.nodup_cons.mpr ⟨?_, nodup_of_firstDup_none rest h⟩
      intro hmem
      exact hc (by simpa using hmem)

/-- Successfully compiled field lists carry pairwise distinct names (the
§4.5 duplicate check). -/
theorem compileFieldsF_nodup (n : Nat) (s : String) (fs : List FieldSpec)
    (h : compileFieldsF n s = .ok fs) : (fs.map FieldSpec.name).Nodup := by
  cases n with
  | zero => rw [compileFieldsF] at h; cases h
  | succ n =>
    rw [compileFieldsF] at h
    cases hcl : compileFieldListF n (splitOutsideGroups s ',') with
    | error e =>
      rw [hcl] at h
      have h2 : (Except.error e : Except CompileError (List FieldSpec)) = .ok fs := h
      cases h2
    | ok fields =>
      rw [hcl] at h
      have h2 : (match firstDup (fields.map FieldSpec.name) with
        | some d => (Except.error (.duplicateField d) :
            Except CompileError (List FieldSpec))
        | none => .ok fields) = .ok fs := h
      cases hd : firstDup (fields.map FieldSpec.name) with
      | some d => rw [hd] at h2; cases h2
      | none =>
        rw [hd] at h2
        injection h2 with h2
        subst h2
        exact nodup_of_firstDup_none _ hd

/-- Every schema produced by the compiler has pairwise distinct field
names. -/
theorem parse_fields_nodup (s : String) (sch : Schema)
    (h : parseStringSchema s = .ok sch) :
    (sch.fields.map FieldSpec.name).Nodup := by
  unfold parseStringSchema at h
  split at h
  · cases hc : compileFieldsF (4 * (s.data.length + 8)) s with
    | ok fields =>
      rw [hc] at h
      injection h with h
      subst h
      exact compileFieldsF_nodup _ s fields hc
    | error e => rw [hc] at h; cases h
  · cases h

/-- C10: the multi-line, space-padded notation compiles to the same
schema as its compact single-line form, and the compiled field names
carry no surrounding whitespace. -/
theorem C10_whitespace_invariance :
    parseStringSchema "\n            id:int | Unique identifier,\n            name:string | User name,\n            age:int(0,120)=18 | User age,\n            active:bool=true | Account status,\n            email:string? | Optional email\n        " =
      .ok c10Schema ∧
    parseStringSchema "id:int | Unique identifier, name:string | User name, age:int(0,120)=18 | User age, active:bool=true | Account status, email:string? | Optional email" =
      .ok c10Schema ∧
    (c10Schema.fields.all (fun f => strTrim f.name == f.name)) = true :=
  ⟨rfl, rfl, rfl⟩

/-- C6 counterexample: for the notation `user:{a:int=1}` the input
`{"user": {}}` has `user` present, yet the output binds `user` to a
different value — recursive normalization injected the nested field's
default inside it, so a present field's value is not always left
unchanged. -/
theorem C6_present_field_changed_counterexample :
    validateToDict [("user", Value.map [])] "user:{a:int=1}" =
      .ok [("user", Value.map [("a", Value.int 1)])] ∧
    Value.map [("a", Value.int 1)] ≠ Value.map [] :=
  ⟨rfl, by simp⟩

/-- C6 (amended): default injection never replaces a present field.  For
every successfully validated object level of a compiled schema: a key
present in the input comes out bound to the successful validation
(recursive normalization) of its input value — unchanged whenever its
declared type is a scalar, and never the field's default — while
undeclared present keys pass through unchanged; and a key absent from
the input appears in the output only as the verbatim default of the
field it names. -/
theorem C6_defaults_only_for_absent (s : String) (sch : Schema) (n : Nat)
    (m out : List (String × Value))
    (hs : parseStringSchema s = .ok sch)
    (hv : validateFields (n + 1) sch.fields m = .ok out) :
    (∀ k v, lookupField m k = some v →
      (match findField sch.fields k with
       | some f => ∃ w nv, validateValue nv k f.type v = .ok w ∧
           lookupField out k = some w ∧
           (∀ sk c, f.type = .scalar sk c → w = v)
       | none => lookupField out k = some v)) ∧
    (∀ k w, lookupField m k = none → lookupField out k = some w →
      ∃ f, findField sch.fields k = some f ∧ f.default = some w) := by
  have hnd := parse_fields_nodup s sch hs
  rw [validateFields] at hv
  split at hv
  · next hcond =>
    injection hv with hv
    subst hv
    have hc1 : (checkFields n sch.fields m).1 = [] := by
      rw [List.isEmpty_iff] at hcond
      exact (List.append_eq_nil.mp hcond).2
    constructor
    · intro k v hk
      cases hf : findField sch.fields k with
      | some f =>
        simp only [hf]
        obtain ⟨w, nv, hval, hlook⟩ :=
          checkFields_present n sch.fields m k v f hc1 hk hf
        refine ⟨w, nv, hval, lookupField_append_some _ _ k w hlook, ?_⟩
        intro sk c hty
        exact validateValue_scalar_ok nv k sk c v w (hty ▸ hval)
      | none =>
        simp only [hf]
        rw [lookupField_append_none _ _ k
          (checkFields_lookup_undeclared n sch.fields m k hf)]
        rw [passthrough_lookup_undeclared sch.fields m k hf]
        exact hk
    · intro k w hmk hok
      cases hc2 : lookupField (checkFields n sch.fields m).2 k with
      | some w2 =>
        have hap := lookupField_append_some _ (passthrough sch.fields m) k w2 hc2
        rw [hap] at hok
        injection hok with hok
        obtain ⟨f, hf, hd⟩ :=
          checkFields_absent n sch.fields m k w2 hnd hmk hc2
        exact ⟨f, hf, hok ▸ hd⟩
      | none =>
        rw [lookupField_append_none _ _ k hc2] at hok
        rw [passthrough_lookup_absent sch.fields m k hmk] at hok
        cases hok
  · cases hv

/-- C6 witness: for `a:int=1, b:string` validated against
`{"b": "x"}` — the present field `b` keeps its (scalar) value, and the
absent field `a` got exactly its declared default injected. -/
theorem C6_defaults_only_for_absent_witness :
    (∃ w nv, validateValue nv "b" (TypeDesc.scalar .string noConstraints)
        (Value.text "x") = .ok w ∧
      lookupField [("a", Value.int 1), ("b", Value.text "x")] "b" = some w ∧
      (∀ sk c, TypeDesc.scalar SKind.string noConstraints =
        TypeDesc.scalar sk c → w = Value.text "x")) ∧
    (∃ f, findField
        [.mk "a" (.scalar .integer noConstraints) false (some (.int 1)) none,
         .mk "b" (.scalar .string noConstraints) false none none] "a" =
        some f ∧ f.default = some (Value.int 1)) := by
  have h := C6_defaults_only_for_absent "a:int=1, b:string"
    ⟨[.mk "a" (.scalar .integer noConstraints) false (some (.int 1)) none,
      .mk "b" (.scalar .string noConstraints) false none none], ["a", "b"]⟩
    50 [("b", Value.text "x")] [("a", Value.int 1), ("b", Value.text "x")]
    rfl rfl
  exact ⟨h.1 "b" (Value.text "x") rfl, h.2 "a" (Value.int 1) rfl rfl⟩

end StringSchema
